import Mathlib

/-!
Shallow embedding of the email-attachment-extractor service
(src/email/email.service.ts) and proofs about its extraction pipeline.

JavaScript strings are modelled as lists of characters (`JStr`), so the
string operations the service uses (`includes`, `startsWith`, `endsWith`,
`toLowerCase`, `split`) become plain recursive functions amenable to
induction.  JavaScript values that can flow out of `JSON.parse` or out of
the axios response transform are modelled by the inductive type
`JsonValue`; JavaScript truthiness is the function `jsTruthy`.

External collaborators (the mail decoder, cheerio, the text URL regex,
axios, `JSON.parse`) are modelled as oracle functions carried in a
`NetWorld` record or passed as parameters; the platform URL constructor
`new URL(ref, base)` is modelled explicitly by `urlResolve` because one
claim evaluates it on concrete inputs.
-/

/-- JavaScript strings, modelled as lists of characters. -/
abbrev JStr := List Char

/-- Coercion from Lean string literals to the `JStr` model. -/
def jstr (s : String) : JStr := s.data

/-- Model of JavaScript `String.prototype.toLowerCase` (character-wise). -/
def lowerStr (s : JStr) : JStr := s.map Char.toLower

/-- Tests whether `pat` occurs at the very front of `s`; this is the model
of JavaScript `String.prototype.startsWith`. -/
def leadMatch : JStr → JStr → Bool
  | _, [] => true
  | [], _ :: _ => false
  | c :: s, p :: pat => c == p && leadMatch s pat

/-- Model of JavaScript `String.prototype.startsWith`. -/
def jsStartsWith (s pat : JStr) : Bool := leadMatch s pat

/-- Model of JavaScript `String.prototype.includes`: `pat` occurs as a
contiguous run somewhere in `s`. -/
def hasRun : JStr → JStr → Bool
  | [], pat => pat.isEmpty
  | c :: s, pat => leadMatch (c :: s) pat || hasRun s pat

/-- Model of JavaScript `String.prototype.endsWith`. -/
def jsEndsWith (s pat : JStr) : Bool := leadMatch s.reverse pat.reverse

/-- Model of `url.split(x7b the question mark x7d)[0]`: the characters
before the first question mark, or all of `s` when there is none. -/
def beforeQuery (s : JStr) : JStr := s.takeWhile (fun c => c != '?')

/-- JavaScript values that can come out of `JSON.parse` or out of the
axios response transform: the standard JSON value tree, with plain
strings as one of the cases (an axios body that was not parsed as JSON
stays a string). -/
inductive JsonValue where
  | null
  | bool (b : Bool)
  | num (n : Int)
  | str (s : JStr)
  | arr (elems : List JsonValue)
  | obj (fields : List (JStr × JsonValue))

/-- JavaScript truthiness of a `JsonValue`: `null`, `false`, `0` and the
empty string are falsy; every array and object (even empty) is truthy. -/
def jsTruthy : JsonValue → Bool
  | .null => false
  | .bool b => b
  | .num n => n != 0
  | .str s => !s.isEmpty
  | .arr _ => true
  | .obj _ => true

/-- Truthiness of an optional JavaScript value, where `none` stands for
the JavaScript `null` returned by a helper that found nothing. -/
def optTruthy : Option JsonValue → Bool
  | none => false
  | some v => jsTruthy v

/-- Model of the JavaScript test comparing `typeof v` with the word
object, a test which is true for objects, arrays and also for `null`. -/
def jsTypeofObject : JsonValue → Bool
  | .null => true
  | .arr _ => true
  | .obj _ => true
  | _ => false

/-- Model of the JavaScript test `v === null`. -/
def isNullJs : JsonValue → Bool
  | .null => true
  | _ => false

/-- Decoded mail attachment as exposed by mailparser: a declared
content-type, an optional filename, and the content (already UTF-8
decoded, since the service only ever looks at
`attachment.content.toString` applied to the utf-8 encoding). -/
structure Attachment where
  contentType : JStr
  filename : Option JStr
  content : JStr

/-- Embedding of `EmailService.isJsonAttachment`: the content-type is
lowercased and tested for the run `application/json`; the filename (empty
string when absent) is lowercased and tested for the suffix `.json`. -/
def isJsonAttachment (a : Attachment) : Bool :=
  let contentType := lowerStr a.contentType
  let filename := match a.filename with
    | some f => lowerStr f
    | none => []
  hasRun contentType (jstr "application/json") || jsEndsWith filename (jstr ".json")

/-- Embedding of the scan loop inside
`EmailService.extractJsonFromAttachments`: for each attachment classified
by `isJsonAttachment`, try `JSON.parse` (the oracle `parse`) on its
content; a successful parse is returned at once, a failed parse only logs
a warning and the loop continues with the next attachment. -/
def attachmentsLoop (parse : JStr → Option JsonValue) : List Attachment → Option JsonValue
  | [] => none
  | a :: rest =>
    if isJsonAttachment a then
      match parse a.content with
      | some v => some v
      | none => attachmentsLoop parse rest
    else attachmentsLoop parse rest

/-- Embedding of `EmailService.extractJsonFromAttachments`: an empty (or
missing) attachment list yields `null` at once, otherwise the scan loop
runs. -/
def extractJsonFromAttachments (parse : JStr → Option JsonValue)
    (attachments : List Attachment) : Option JsonValue :=
  if attachments.isEmpty then none else attachmentsLoop parse attachments

/-- HTTP response as the service sees it through axios: a numeric status,
the optional `content-type` header, and the transformed body `data` (a
`JsonValue`: a plain string when the body was not parsed as JSON, the
parsed value otherwise). -/
structure HttpResponse where
  status : Nat
  contentType : Option JStr
  data : JsonValue

/-- Outcome of one `axios.get`: either a response, or a thrown transport
error (network failure, timeout, unsupported protocol, or a status the
axios defaults reject). -/
inductive FetchOutcome where
  | ok (r : HttpResponse)
  | err

/-- Oracles for the external collaborators of the link pipeline:
`fetch` is `axios.get`, `anchors` is cheerio applied to an HTML string
(the href attribute of each anchor element, in document order, `none`
when the attribute is absent), and `urlMatches` is the plain-text URL
regular expression (its matches in order, `[]` when there are none). -/
structure NetWorld where
  fetch : JStr → FetchOutcome
  anchors : JStr → List (Option JStr)
  urlMatches : JStr → List JStr

/-- Model of the `response.headers` lookup with its empty-string default:
`response.headers[...] || two quotes` in the source. -/
def ctHeader (r : HttpResponse) : JStr := r.contentType.getD []

/-- Components of an absolute http(s) URL. -/
structure UrlParts where
  scheme : JStr
  host : JStr
  path : JStr
  query : Option JStr

/-- Splits a string into the part before the first question mark and,
when a question mark is present, the part after it. -/
def querySplit (s : JStr) : JStr × Option JStr :=
  let p := beforeQuery s
  let rest := s.drop p.length
  (p, if rest.isEmpty then none else some (rest.drop 1))

/-- Reads an absolute http or https URL into its components; `none` for
anything else (no scheme, or an empty host).  Part of the `urlResolve`
model of the platform URL constructor. -/
def parseHttpUrl (s : JStr) : Option UrlParts :=
  let (scheme, rest) :=
    if leadMatch s (jstr "https://") then (jstr "https", s.drop 8)
    else if leadMatch s (jstr "http://") then (jstr "http", s.drop 7)
    else ([], s)
  if scheme.isEmpty then none
  else
    let host := rest.takeWhile (fun c => c != '/' && c != '?')
    if host.isEmpty then none
    else
      let after := rest.drop host.length
      let (path, query) := querySplit after
      some ⟨scheme, host, if path.isEmpty then jstr "/" else path, query⟩

/-- Serializes URL components back to a string. -/
def urlToString (u : UrlParts) : JStr :=
  u.scheme ++ jstr "://" ++ u.host ++ u.path ++
    (match u.query with
     | some q => '?' :: q
     | none => [])

/-- Drops the last path segment, keeping the trailing slash of the
directory part: the merge step of relative-reference resolution. -/
def dropLastSegment (p : JStr) : JStr :=
  (p.reverse.dropWhile (fun c => c != '/')).reverse

/-- Model of the platform URL constructor
`new URL(ref, base).toString()` as used by the page link chaser,
restricted to http(s) URLs: an absolute http(s) reference stands alone; a
reference beginning with two slashes borrows the scheme of the base; a
reference beginning with one slash replaces the path of the base; any
other reference replaces the last path segment of the base; the query of
the reference is kept.  `none` models the constructor throwing (base not
an absolute http(s) URL, or a reference with an http(s) scheme but no
host).  Fragments, userinfo, ports, percent-encoding and dot-segment
normalization are outside the model; no claim exercises them. -/
def urlResolve (ref base : JStr) : Option JStr :=
  match parseHttpUrl ref with
  | some u => some (urlToString u)
  | none =>
    if leadMatch ref (jstr "http://") || leadMatch ref (jstr "https://") then none
    else
      match parseHttpUrl base with
      | none => none
      | some b =>
        if ref.isEmpty then some (urlToString b)
        else if leadMatch ref (jstr "//") then
          match parseHttpUrl (b.scheme ++ ':' :: ref) with
          | some u => some (urlToString u)
          | none => none
        else
          let (refPath, refQuery) := querySplit ref
          if leadMatch ref (jstr "/") then
            some (urlToString ⟨b.scheme, b.host, refPath, refQuery⟩)
          else if refPath.isEmpty then
            some (urlToString ⟨b.scheme, b.host, b.path, refQuery⟩)
          else
            some (urlToString ⟨b.scheme, b.host, dropLastSegment b.path ++ refPath, refQuery⟩)

/-- Model of building a JavaScript `Set` of strings by repeated `add`:
iteration order of a `Set` is insertion order, and an `add` of an element
already present changes nothing. -/
def jsSetFold : List JStr → List JStr → List JStr
  | acc, [] => acc
  | acc, s :: rest => jsSetFold (if s ∈ acc then acc else acc ++ [s]) rest

/-- The list of distinct strings of `l` in first-insertion order: the
contents of a JavaScript `Set` after adding every element of `l`. -/
def jsSetOfList (l : List JStr) : List JStr := jsSetFold [] l

/-- Hrefs actually collected from a list of anchor elements: the source
`if (href) links.add(href)` skips a missing attribute and also an empty
string, which is falsy. -/
def hrefsOf (anchorHrefs : List (Option JStr)) : List JStr :=
  anchorHrefs.filterMap fun h =>
    match h with
    | some s => if s.isEmpty then none else some s
    | none => none

/-- The acceptance test of the page link chaser on a fetched candidate:
status exactly 200, and content-type containing `application/json` or a
body whose JavaScript type is object (with no exclusion of `null`). -/
def chaseAccept (r : HttpResponse) : Bool :=
  r.status == 200 &&
    (hasRun (ctHeader r) (jstr "application/json") || jsTypeofObject r.data)

/-- The suffix heuristic of the page link chaser: the resolved URL,
lowercased and with any query string stripped, ends in `.json`. -/
def looksLikeJsonUrl (u : JStr) : Bool :=
  jsEndsWith (beforeQuery (lowerStr u)) (jstr ".json")

/-- Embedding of the loop inside `EmailService.extractJsonFromHtmlPage`:
each harvested link is resolved against the base URL (a failed resolution
is skipped, not fatal); a resolved link passing the suffix heuristic is
fetched, and the first fetch passing `chaseAccept` returns its body at
once; thrown fetches and rejected responses let the loop continue. -/
def chaseLoop (net : NetWorld) (baseUrl : JStr) : List JStr → Option JsonValue
  | [] => none
  | link :: rest =>
    match urlResolve link baseUrl with
    | none => chaseLoop net baseUrl rest
    | some absoluteUrl =>
      if looksLikeJsonUrl absoluteUrl then
        match net.fetch absoluteUrl with
        | .err => chaseLoop net baseUrl rest
        | .ok r => if chaseAccept r then some r.data else chaseLoop net baseUrl rest
      else chaseLoop net baseUrl rest

/-- Embedding of `EmailService.extractJsonFromHtmlPage`: harvest the
anchor hrefs of the page into a `Set`, then run the chase loop with the
page URL as base. -/
def extractJsonFromHtmlPage (net : NetWorld) (html : JStr) (baseUrl : JStr) :
    Option JsonValue :=
  chaseLoop net baseUrl (jsSetOfList (hrefsOf (net.anchors html)))

/-- The direct-JSON test of `EmailService.checkLinkForJson` on a status
200 response: content-type containing `application/json`, or a body whose
JavaScript type is object and which is not `null`. -/
def resolverDirectAccept (ct : JStr) (d : JsonValue) : Bool :=
  hasRun ct (jstr "application/json") || (jsTypeofObject d && !isNullJs d)

/-- Embedding of `EmailService.checkLinkForJson`: a thrown fetch is
caught and yields `null`; any status other than 200 yields `null`;
otherwise a response passing the direct-JSON test returns its body, a
`text/html` response with a string body delegates to the page link
chaser, and anything else yields `null`. -/
def checkLinkForJson (net : NetWorld) (url : JStr) : Option JsonValue :=
  match net.fetch url with
  | .err => none
  | .ok r =>
    if r.status != 200 then none
    else
      let contentType := ctHeader r
      if resolverDirectAccept contentType r.data then some r.data
      else
        match r.data with
        | .str s =>
          if hasRun contentType (jstr "text/html") then
            extractJsonFromHtmlPage net s url
          else none
        | _ => none

/-- Embedding of the loop inside `EmailService.extractJsonFromLinks`:
links beginning with `mailto:` or with a hash mark are skipped; every
other link goes to `checkLinkForJson`, and a truthy result is returned at
once. -/
def linksLoop (net : NetWorld) : List JStr → Option JsonValue
  | [] => none
  | link :: rest =>
    if jsStartsWith link (jstr "mailto:") || jsStartsWith link (jstr "#") then
      linksLoop net rest
    else
      let result := checkLinkForJson net link
      if optTruthy result then result else linksLoop net rest

/-- Links collected by `EmailService.extractJsonFromLinks` before
deduplication: anchor hrefs of the HTML body (when the body is present
and nonempty, both falsy in the source), then regex matches of the plain
text body (same falsiness guard). -/
def collectedLinks (net : NetWorld) (html text : Option JStr) : List JStr :=
  (match html with
   | some h => if h.isEmpty then [] else hrefsOf (net.anchors h)
   | none => []) ++
  (match text with
   | some t => if t.isEmpty then [] else net.urlMatches t
   | none => [])

/-- The link harvest of `EmailService.extractJsonFromLinks`: the
collected links of both bodies, deduplicated by the `Set` in insertion
order. -/
def harvestLinks (net : NetWorld) (html text : Option JStr) : List JStr :=
  jsSetOfList (collectedLinks net html text)

/-- Embedding of `EmailService.extractJsonFromLinks`. -/
def extractJsonFromLinks (net : NetWorld) (html text : Option JStr) :
    Option JsonValue :=
  linksLoop net (harvestLinks net html text)

/-- Decoded message as exposed by mailparser: the ordered attachment
list, the HTML body (`none` for the `false` of a missing body) and the
plain text body (`none` for `undefined`). -/
structure DecodedMessage where
  attachments : List Attachment
  html : Option JStr
  text : Option JStr

/-- Embedding of the strategy pipeline of `EmailService.processEmail`
after decoding (source retrieval and mail decoding are external
collaborators): the attachment strategy runs first and its result is
returned when truthy; otherwise the link strategies run and their result
is returned when truthy; otherwise `none`, modelling the thrown
NotFoundException. -/
def processEmail (parse : JStr → Option JsonValue) (net : NetWorld)
    (msg : DecodedMessage) : Option JsonValue :=
  let attachmentJson := extractJsonFromAttachments parse msg.attachments
  if optTruthy attachmentJson then attachmentJson
  else
    let linkJson := extractJsonFromLinks net msg.html msg.text
    if optTruthy linkJson then linkJson else none

/-- Instrumentation of `linksLoop`: the links on which
`checkLinkForJson` is invoked, in invocation order, following exactly the
control flow of the loop (skipped links are absent, and a truthy result
ends the list). -/
def resolverCalls (net : NetWorld) : List JStr → List JStr
  | [] => []
  | link :: rest =>
    if jsStartsWith link (jstr "mailto:") || jsStartsWith link (jstr "#") then
      resolverCalls net rest
    else
      link :: (if optTruthy (checkLinkForJson net link) then [] else resolverCalls net rest)

/-- Instrumentation of `chaseLoop`: the absolute URLs the chaser passes
to `axios.get`, in invocation order, following exactly the control flow
of the loop. -/
def chaseFetches (net : NetWorld) (baseUrl : JStr) : List JStr → List JStr
  | [] => []
  | link :: rest =>
    match urlResolve link baseUrl with
    | none => chaseFetches net baseUrl rest
    | some absoluteUrl =>
      if looksLikeJsonUrl absoluteUrl then
        absoluteUrl ::
          (match net.fetch absoluteUrl with
           | .err => chaseFetches net baseUrl rest
           | .ok r => if chaseAccept r then [] else chaseFetches net baseUrl rest)
      else chaseFetches net baseUrl rest

/-- The distinct strings of `l` not in `seen`, each at the position of
its first occurrence: the reference description of first-insertion
order. -/
def firstOccurList : List JStr → List JStr → List JStr
  | _, [] => []
  | seen, a :: l =>
    if a ∈ seen then firstOccurList seen l else a :: firstOccurList (a :: seen) l

theorem leadMatch_iff (pat s : JStr) : leadMatch s pat = true ↔ ∃ t, s = pat ++ t := by
  induction pat generalizing s with
  | nil => simp [leadMatch]
  | cons p pat ih =>
    cases s with
    | nil => simp [leadMatch]
    | cons c s =>
      simp only [leadMatch, Bool.and_eq_true, beq_iff_eq, List.cons_append,
        List.cons.injEq]
      constructor
      · rintro ⟨rfl, hm⟩
        obtain ⟨t, rfl⟩ := (ih s).mp hm
        exact ⟨t, rfl, rfl⟩
      · rintro ⟨t, rfl, rfl⟩
        exact ⟨rfl, (ih _).mpr ⟨t, rfl⟩⟩

theorem hasRun_iff (pat s : JStr) :
    hasRun s pat = true ↔ ∃ pre post, s = pre ++ pat ++ post := by
  induction s with
  | nil =>
    simp only [hasRun, List.isEmpty_iff]
    constructor
    · rintro rfl
      exact ⟨[], [], rfl⟩
    · rintro ⟨pre, post, hp⟩
      rcases List.append_eq_nil.mp hp.symm with ⟨h1, h2⟩
      exact (List.append_eq_nil.mp h1).2
  | cons c s ih =>
    simp only [hasRun, Bool.or_eq_true]
    constructor
    · rintro (hl | hr)
      · obtain ⟨t, ht⟩ := (leadMatch_iff _ _).mp hl
        exact ⟨[], t, by simpa using ht⟩
      · obtain ⟨pre, post, rfl⟩ := ih.mp hr
        exact ⟨c :: pre, post, rfl⟩
    · rintro ⟨pre, post, hp⟩
      cases pre with
      | nil =>
        left
        exact (leadMatch_iff _ _).mpr ⟨post, by simpa using hp⟩
      | cons d pre =>
        right
        rw [List.cons_append, List.cons_append] at hp
        injection hp with h1 h2
        exact ih.mpr ⟨pre, post, by simpa using h2⟩

theorem jsEndsWith_iff (pat s : JStr) :
    jsEndsWith s pat = true ↔ ∃ pre, s = pre ++ pat := by
  unfold jsEndsWith
  rw [leadMatch_iff]
  constructor
  · rintro ⟨t, ht⟩
    refine ⟨t.reverse, ?_⟩
    have := congrArg List.reverse ht
    simpa using this
  · rintro ⟨pre, rfl⟩
    exact ⟨pre.reverse, by simp⟩

theorem firstOccurList_congr (l : List JStr) :
    ∀ s1 s2, (∀ x, x ∈ s1 ↔ x ∈ s2) → firstOccurList s1 l = firstOccurList s2 l := by
  induction l with
  | nil => intro s1 s2 _; rfl
  | cons a l ih =>
    intro s1 s2 hs
    simp only [firstOccurList]
    by_cases ha : a ∈ s1
    · rw [if_pos ha, if_pos ((hs a).mp ha), ih s1 s2 hs]
    · rw [if_neg ha, if_neg (fun h => ha ((hs a).mpr h))]
      have : ∀ x, x ∈ a :: s1 ↔ x ∈ a :: s2 := by
        intro x
        simp only [List.mem_cons]
        exact or_congr Iff.rfl (hs x)
      rw [ih _ _ this]

theorem jsSetFold_eq_append (l : List JStr) :
    ∀ acc, jsSetFold acc l = acc ++ firstOccurList acc l := by
  induction l with
  | nil => intro acc; simp [jsSetFold, firstOccurList]
  | cons a l ih =>
    intro acc
    simp only [jsSetFold, firstOccurList]
    by_cases ha : a ∈ acc
    · rw [if_pos ha, if_pos ha, ih acc]
    · rw [if_neg ha, if_neg ha, ih (acc ++ [a]), List.append_assoc]
      have : firstOccurList (acc ++ [a]) l = firstOccurList (a :: acc) l := by
        apply firstOccurList_congr
        intro x
        simp [or_comm]
      rw [this]
      rfl

theorem mem_firstOccurList (x : JStr) (l : List JStr) :
    ∀ seen, x ∈ firstOccurList seen l ↔ x ∉ seen ∧ x ∈ l := by
  induction l with
  | nil => intro seen; simp [firstOccurList]
  | cons a l ih =>
    intro seen
    simp only [firstOccurList]
    by_cases ha : a ∈ seen
    · rw [if_pos ha, ih seen]
      simp only [List.mem_cons]
      constructor
      · rintro ⟨h1, h2⟩
        exact ⟨h1, Or.inr h2⟩
      · rintro ⟨h1, h2 | h2⟩
        · exact absurd ha (h2 ▸ h1)
        · exact ⟨h1, h2⟩
    · rw [if_neg ha]
      simp only [List.mem_cons, ih (a :: seen), List.mem_cons]
      constructor
      · rintro (rfl | ⟨h1, h2⟩)
        · exact ⟨ha, Or.inl rfl⟩
        · exact ⟨fun hx => h1 (Or.inr hx), Or.inr h2⟩
      · rintro ⟨h1, rfl | h2⟩
        · exact Or.inl rfl
        · by_cases hxa : x = a
          · exact Or.inl hxa
          · exact Or.inr ⟨fun hx => (hx.elim hxa h1 : False), h2⟩

theorem nodup_firstOccurList (l : List JStr) :
    ∀ seen, (firstOccurList seen l).Nodup := by
  induction l with
  | nil => intro seen; simp [firstOccurList]
  | cons a l ih =>
    intro seen
    simp only [firstOccurList]
    by_cases ha : a ∈ seen
    · rw [if_pos ha]; exact ih seen
    · rw [if_neg ha]
      refine List.nodup_cons.mpr ⟨?_, ih (a :: seen)⟩
      intro hmem
      exact ((mem_firstOccurList a l (a :: seen)).mp hmem).1 (List.mem_cons_self a seen)

theorem sublist_firstOccurList (l : List JStr) :
    ∀ seen, (firstOccurList seen l).Sublist l := by
  induction l with
  | nil => intro seen; simp [firstOccurList]
  | cons a l ih =>
    intro seen
    simp only [firstOccurList]
    by_cases ha : a ∈ seen
    · rw [if_pos ha]; exact (ih seen).cons a
    · rw [if_neg ha]; exact (ih (a :: seen)).cons₂ a

theorem jsSetOfList_eq (l : List JStr) : jsSetOfList l = firstOccurList [] l := by
  unfold jsSetOfList
  rw [jsSetFold_eq_append]
  rfl

theorem mem_jsSetOfList (x : JStr) (l : List JStr) : x ∈ jsSetOfList l ↔ x ∈ l := by
  rw [jsSetOfList_eq, mem_firstOccurList]
  simp

theorem nodup_jsSetOfList (l : List JStr) : (jsSetOfList l).Nodup := by
  rw [jsSetOfList_eq]; exact nodup_firstOccurList l []

theorem sublist_jsSetOfList (l : List JStr) : (jsSetOfList l).Sublist l := by
  rw [jsSetOfList_eq]; exact sublist_firstOccurList l []

theorem count_eq_one_of_nodup_mem {s : JStr} {l : List JStr}
    (hn : l.Nodup) (hm : s ∈ l) : l.count s = 1 := by
  induction l with
  | nil => cases hm
  | cons b t ih =>
    rw [List.count_cons]
    rcases List.mem_cons.mp hm with rfl | hms
    · have h0 : t.count s = 0 :=
        List.count_eq_zero.mpr (List.nodup_cons.mp hn).1
      simp [h0]
    · have hb : b ≠ s := fun he => (List.nodup_cons.mp hn).1 (he ▸ hms)
      rw [ih (List.nodup_cons.mp hn).2 hms]
      simp [hb]

theorem attachmentsLoop_eq (parse : JStr → Option JsonValue) (atts : List Attachment) :
    attachmentsLoop parse atts =
      ((atts.filter fun a => isJsonAttachment a).filterMap fun a => parse a.content).head? := by
  induction atts with
  | nil => rfl
  | cons a rest ih =>
    by_cases hj : isJsonAttachment a
    · cases hp : parse a.content with
      | none => simp [attachmentsLoop, hj, List.filter_cons, List.findSome?_cons, hp, ih]
      | some v => simp [attachmentsLoop, hj, List.filter_cons, List.findSome?_cons, hp]
    · simp [attachmentsLoop, hj, List.filter_cons, ih]

/-- The classification rule as the specification states it: the
lowercased content-type contains the substring `application/json`, or the
filename is present and its lowercased form ends in `.json`. -/
def specJsonCandidate (a : Attachment) : Prop :=
  (∃ pre post, lowerStr a.contentType = pre ++ jstr "application/json" ++ post) ∨
  (∃ f pre, a.filename = some f ∧ lowerStr f = pre ++ jstr ".json")

/-- Claim C1, counterexample: the first classified attachment fails to
parse, yet the scan does continue and returns the parsed content of the
second classified attachment instead of reporting no match. -/
theorem c1_no_fallthrough_counterexample :
    isJsonAttachment ⟨jstr "application/json", some (jstr "bad.json"), jstr "oops"⟩ = true ∧
    (fun s => if s == jstr "[1]" then some (JsonValue.arr [JsonValue.num 1]) else none)
      (jstr "oops") = none ∧
    extractJsonFromAttachments
      (fun s => if s == jstr "[1]" then some (JsonValue.arr [JsonValue.num 1]) else none)
      [⟨jstr "application/json", some (jstr "bad.json"), jstr "oops"⟩,
       ⟨jstr "application/json", some (jstr "good.json"), jstr "[1]"⟩] =
      some (JsonValue.arr [JsonValue.num 1]) :=
  ⟨by decide, by rfl, by rfl⟩

/-- Claim C1 as amended: the attachment scan returns the parse result of
the FIRST classified attachment whose content parses successfully, in
document order; a classified attachment that fails to parse is skipped
and scanning continues with the later attachments; no match is reported
only when no classified attachment parses. -/
theorem c1_first_parsing_attachment (parse : JStr → Option JsonValue)
    (atts : List Attachment) :
    extractJsonFromAttachments parse atts =
      ((atts.filter fun a => isJsonAttachment a).filterMap fun a => parse a.content).head? := by
  unfold extractJsonFromAttachments
  cases atts with
  | nil => rfl
  | cons a rest => simpa using attachmentsLoop_eq parse (a :: rest)

/-- Claim C3: an attachment is classified as a JSON candidate exactly
when its declared content-type contains `application/json`
case-insensitively, or its filename is present and ends in `.json`
case-insensitively; an absent filename leaves only the content-type
test. -/
theorem c3_classification_rule (a : Attachment) :
    isJsonAttachment a = true ↔ specJsonCandidate a := by
  unfold isJsonAttachment specJsonCandidate
  cases hf : a.filename with
  | none =>
    simp only [Bool.or_eq_true]
    constructor
    · rintro (hc | he)
      · exact Or.inl ((hasRun_iff _ _).mp hc)
      · exact absurd he (by decide)
    · rintro (⟨pre, post, hp⟩ | ⟨f, pre, hsome, _⟩)
      · exact Or.inl ((hasRun_iff _ _).mpr ⟨pre, post, hp⟩)
      · exact Option.noConfusion hsome
  | some f =>
    simp only [Bool.or_eq_true]
    constructor
    · rintro (hc | he)
      · exact Or.inl ((hasRun_iff _ _).mp hc)
      · obtain ⟨pre, hp⟩ := (jsEndsWith_iff _ _).mp he
        exact Or.inr ⟨f, pre, rfl, hp⟩
    · rintro (⟨pre, post, hp⟩ | ⟨g, pre, hsome, hp⟩)
      · exact Or.inl ((hasRun_iff _ _).mpr ⟨pre, post, hp⟩)
      · injection hsome with hg
        subst hg
        exact Or.inr ((jsEndsWith_iff _ _).mpr ⟨pre, hp⟩)

/-- Concrete instance of claim C3: an attachment with a plain text
content-type and filename `A.Json` satisfies the specification
classification rule, via the classification theorem. -/
theorem c3_classification_rule_witness :
    specJsonCandidate ⟨jstr "text/plain", some (jstr "A.Json"), []⟩ :=
  (c3_classification_rule ⟨jstr "text/plain", some (jstr "A.Json"), []⟩).mp (by decide)

/-- Claim C4, counterexample: a classified attachment whose content
parses as the scalar 0 is not returned as the extraction result; the
parse succeeds with the value 0, yet the pipeline falls through past the
attachment strategy and reports not found. -/
theorem c4_scalar_counterexample :
    isJsonAttachment ⟨jstr "application/json", some (jstr "data.json"), jstr "0"⟩ = true ∧
    (fun s => if s == jstr "0" then some (JsonValue.num 0) else none) (jstr "0") =
      some (JsonValue.num 0) ∧
    extractJsonFromAttachments
      (fun s => if s == jstr "0" then some (JsonValue.num 0) else none)
      [⟨jstr "application/json", some (jstr "data.json"), jstr "0"⟩] =
      some (JsonValue.num 0) ∧
    processEmail (fun s => if s == jstr "0" then some (JsonValue.num 0) else none)
      ⟨fun _ => FetchOutcome.err, fun _ => [], fun _ => []⟩
      ⟨[⟨jstr "application/json", some (jstr "data.json"), jstr "0"⟩], none, none⟩ =
      none :=
  ⟨by decide, by rfl, by rfl, by rfl⟩

/-- Claim C4 as amended: a successfully parsed attachment value is
returned as the extraction result exactly when it is truthy in the
JavaScript sense; a falsy top-level value (0, false, null, or the empty
string) makes the caller treat the attachment strategy as having found
nothing, so the pipeline falls through to the link strategies. -/
theorem c4_scalar_truthiness (parse : JStr → Option JsonValue) (net : NetWorld)
    (msg : DecodedMessage) (v : JsonValue)
    (h : extractJsonFromAttachments parse msg.attachments = some v) :
    (jsTruthy v = true → processEmail parse net msg = some v) ∧
    (jsTruthy v = false →
      processEmail parse net msg =
        (if optTruthy (extractJsonFromLinks net msg.html msg.text) then
          extractJsonFromLinks net msg.html msg.text
         else none)) := by
  unfold processEmail
  rw [h]
  constructor
  · intro ht
    simp [optTruthy, ht]
  · intro ht
    simp [optTruthy, ht]

/-- Concrete instance of claim C4 as amended: a classified attachment
parsing to the truthy scalar 5 is returned as the pipeline result, via
the truthiness theorem. -/
theorem c4_scalar_truthiness_witness :
    processEmail (fun s => if s == jstr "5" then some (JsonValue.num 5) else none)
      ⟨fun _ => FetchOutcome.err, fun _ => [], fun _ => []⟩
      ⟨[⟨jstr "application/json", some (jstr "n.json"), jstr "5"⟩], none, none⟩ =
      some (JsonValue.num 5) :=
  (c4_scalar_truthiness
    (fun s => if s == jstr "5" then some (JsonValue.num 5) else none)
    ⟨fun _ => FetchOutcome.err, fun _ => [], fun _ => []⟩
    ⟨[⟨jstr "application/json", some (jstr "n.json"), jstr "5"⟩], none, none⟩
    (JsonValue.num 5) (by rfl)).1 (by rfl)

/-- Claim C2: the strategies run in a fixed order and the first one
whose result is accepted determines the whole result.  When the
attachment strategy yields a truthy value, the pipeline returns exactly
that value and its behavior is independent of the entire network world,
so the link strategies are never evaluated; otherwise the result is
exactly the link strategies result when truthy, else not found.  No
candidates are ever merged: the result is always the verbatim output of a
single strategy. -/
theorem c2_first_strategy_wins (parse : JStr → Option JsonValue) (net net2 : NetWorld)
    (msg : DecodedMessage) :
    (optTruthy (extractJsonFromAttachments parse msg.attachments) = true →
      processEmail parse net msg = extractJsonFromAttachments parse msg.attachments ∧
      processEmail parse net msg = processEmail parse net2 msg) ∧
    (optTruthy (extractJsonFromAttachments parse msg.attachments) = false →
      processEmail parse net msg =
        (if optTruthy (extractJsonFromLinks net msg.html msg.text) then
          extractJsonFromLinks net msg.html msg.text
         else none)) := by
  constructor
  · intro h
    constructor <;> simp [processEmail, h]
  · intro h
    simp [processEmail, h]

/-- Concrete instance of claim C2: with an attachment carrying valid
JSON and a network world in which the link strategy would also succeed,
the pipeline returns the attachment value, and returns the same thing in
a world where every fetch fails. -/
theorem c2_first_strategy_wins_witness :
    processEmail (fun s => if s == jstr "[1]" then some (JsonValue.arr [JsonValue.num 1]) else none)
      ⟨fun _ => FetchOutcome.ok ⟨200, some (jstr "application/json"),
          JsonValue.arr [JsonValue.num 9]⟩,
       fun _ => [some (jstr "http://x/a")], fun _ => []⟩
      ⟨[⟨jstr "application/json", none, jstr "[1]"⟩], some (jstr "BODY"), none⟩ =
      extractJsonFromAttachments
        (fun s => if s == jstr "[1]" then some (JsonValue.arr [JsonValue.num 1]) else none)
        [⟨jstr "application/json", none, jstr "[1]"⟩] ∧
    processEmail (fun s => if s == jstr "[1]" then some (JsonValue.arr [JsonValue.num 1]) else none)
      ⟨fun _ => FetchOutcome.ok ⟨200, some (jstr "application/json"),
          JsonValue.arr [JsonValue.num 9]⟩,
       fun _ => [some (jstr "http://x/a")], fun _ => []⟩
      ⟨[⟨jstr "application/json", none, jstr "[1]"⟩], some (jstr "BODY"), none⟩ =
      processEmail (fun s => if s == jstr "[1]" then some (JsonValue.arr [JsonValue.num 1]) else none)
        ⟨fun _ => FetchOutcome.err, fun _ => [], fun _ => []⟩
        ⟨[⟨jstr "application/json", none, jstr "[1]"⟩], some (jstr "BODY"), none⟩ :=
  (c2_first_strategy_wins
    (fun s => if s == jstr "[1]" then some (JsonValue.arr [JsonValue.num 1]) else none)
    ⟨fun _ => FetchOutcome.ok ⟨200, some (jstr "application/json"),
        JsonValue.arr [JsonValue.num 9]⟩,
     fun _ => [some (jstr "http://x/a")], fun _ => []⟩
    ⟨fun _ => FetchOutcome.err, fun _ => [], fun _ => []⟩
    ⟨[⟨jstr "application/json", none, jstr "[1]"⟩], some (jstr "BODY"), none⟩).1 (by decide)

/-- Claim C5: the resolver is never invoked on a harvested link that
begins with `mailto:` or with a hash mark (first conjunct, over the
instrumented invocation list of the loop), and consequently the value of
the link loop never depends on how the resolver would behave on such
links (second conjunct). -/
theorem c5_mailto_hash_skipped (net : NetWorld) (links : List JStr) :
    (∀ l, l ∈ resolverCalls net links →
      jsStartsWith l (jstr "mailto:") = false ∧ jsStartsWith l (jstr "#") = false) ∧
    (∀ net2 : NetWorld,
      (∀ u, jsStartsWith u (jstr "mailto:") = false →
        jsStartsWith u (jstr "#") = false →
        checkLinkForJson net u = checkLinkForJson net2 u) →
      linksLoop net links = linksLoop net2 links) := by
  constructor
  · induction links with
    | nil => intro l h; simp [resolverCalls] at h
    | cons a rest ih =>
      intro l h
      simp only [resolverCalls] at h
      by_cases hskip :
          (jsStartsWith a (jstr "mailto:") || jsStartsWith a (jstr "#")) = true
      · rw [if_pos hskip] at h
        exact ih l h
      · rw [if_neg hskip] at h
        rcases List.mem_cons.mp h with rfl | htail
        · exact Bool.or_eq_false_iff.mp (Bool.not_eq_true _ ▸ hskip)
        · by_cases htr : optTruthy (checkLinkForJson net a) = true
          · rw [if_pos htr] at htail
            simp at htail
          · rw [if_neg htr] at htail
            exact ih l htail
  · intro net2 hagree
    induction links with
    | nil => rfl
    | cons a rest ih =>
      simp only [linksLoop]
      by_cases hskip :
          (jsStartsWith a (jstr "mailto:") || jsStartsWith a (jstr "#")) = true
      · rw [if_pos hskip, if_pos hskip, ih]
      · have hsplit := Bool.or_eq_false_iff.mp (Bool.not_eq_true _ ▸ hskip)
        rw [if_neg hskip, if_neg hskip, hagree a hsplit.1 hsplit.2, ih]

/-- Concrete instance of claim C5: in a two-link harvest whose first
link is a mailto link, the resolver is invoked only on the second link,
which indeed begins with neither forbidden marker, via the skipping
theorem. -/
theorem c5_mailto_hash_skipped_witness :
    jsStartsWith (jstr "http://a") (jstr "mailto:") = false ∧
    jsStartsWith (jstr "http://a") (jstr "#") = false :=
  (c5_mailto_hash_skipped ⟨fun _ => FetchOutcome.err, fun _ => [], fun _ => []⟩
    [jstr "mailto:x", jstr "http://a"]).1 (jstr "http://a") (by decide)

/-- Claim C6: the link harvester built on the `Set` model yields the
distinct collected links in first-insertion order: the harvest equals the
first-occurrence list of the collected links, has no duplicates, is a
subsequence of the collected links (so iteration order preserves
insertion order), has exactly the collected strings as members (exact
string comparison, no normalization), and counts each collected string
exactly once. -/
theorem c6_harvest_unique_ordered (net : NetWorld) (html text : Option JStr) :
    harvestLinks net html text = firstOccurList [] (collectedLinks net html text) ∧
    (harvestLinks net html text).Nodup ∧
    (harvestLinks net html text).Sublist (collectedLinks net html text) ∧
    (∀ s, s ∈ harvestLinks net html text ↔ s ∈ collectedLinks net html text) ∧
    (∀ s, s ∈ collectedLinks net html text → (harvestLinks net html text).count s = 1) := by
  unfold harvestLinks
  refine ⟨jsSetOfList_eq _, nodup_jsSetOfList _, sublist_jsSetOfList _,
    fun s => mem_jsSetOfList s _, fun s hs => ?_⟩
  exact count_eq_one_of_nodup_mem (nodup_jsSetOfList _) ((mem_jsSetOfList s _).mpr hs)

/-- Concrete instance of claim C6: an HTML body whose anchors carry a
duplicated href yields that href exactly once, via the harvest
theorem. -/
theorem c6_harvest_unique_ordered_witness :
    (harvestLinks
      ⟨fun _ => FetchOutcome.err,
       fun _ => [some (jstr "u"), some (jstr "v"), some (jstr "u")], fun _ => []⟩
      (some (jstr "H")) none).count (jstr "u") = 1 :=
  (c6_harvest_unique_ordered
    ⟨fun _ => FetchOutcome.err,
     fun _ => [some (jstr "u"), some (jstr "v"), some (jstr "u")], fun _ => []⟩
    (some (jstr "H")) none).2.2.2.2 (jstr "u") (by decide)

/-- Claim C7: the resolver yields no match for any response whose status
is not exactly 200, and conversely any link that yields a value was
backed by a fetched response with status exactly 200 — classification
only ever happens on a 200 response. -/
theorem c7_status_200_required (net : NetWorld) (url : JStr) :
    (∀ r, net.fetch url = FetchOutcome.ok r → r.status ≠ 200 →
      checkLinkForJson net url = none) ∧
    (∀ v, checkLinkForJson net url = some v →
      ∃ r, net.fetch url = FetchOutcome.ok r ∧ r.status = 200) := by
  constructor
  · intro r hr hst
    unfold checkLinkForJson
    rw [hr]
    simp [hst]
  · intro v hv
    unfold checkLinkForJson at hv
    cases hfetch : net.fetch url with
    | err =>
      rw [hfetch] at hv
      dsimp only at hv
      exact Option.noConfusion hv
    | ok r =>
      rw [hfetch] at hv
      dsimp only at hv
      by_cases hst : r.status = 200
      · exact ⟨r, rfl, hst⟩
      · rw [if_pos (by simpa using hst)] at hv
        exact Option.noConfusion hv

/-- Concrete instance of claim C7: a 404 response yields no match, via
the status theorem. -/
theorem c7_status_200_required_witness :
    checkLinkForJson
      ⟨fun _ => FetchOutcome.ok ⟨404, some (jstr "application/json"),
          JsonValue.arr [JsonValue.num 1]⟩,
       fun _ => [], fun _ => []⟩ (jstr "http://a") = none :=
  (c7_status_200_required
    ⟨fun _ => FetchOutcome.ok ⟨404, some (jstr "application/json"),
        JsonValue.arr [JsonValue.num 1]⟩,
     fun _ => [], fun _ => []⟩ (jstr "http://a")).1
    ⟨404, some (jstr "application/json"), JsonValue.arr [JsonValue.num 1]⟩
    rfl (by decide)

/-- Claim C8: a thrown fetch is caught inside the resolver and yields no
match for that link only; the outer loop then continues with the
remaining links, and inside the page chase a thrown fetch likewise lets
the chase continue with the remaining candidates.  No error is ever
propagated to the overall request. -/
theorem c8_errors_non_fatal (net : NetWorld) :
    (∀ url, net.fetch url = FetchOutcome.err → checkLinkForJson net url = none) ∧
    (∀ l ls, net.fetch l = FetchOutcome.err →
      linksLoop net (l :: ls) = linksLoop net ls) ∧
    (∀ base l ls, (∀ u, urlResolve l base = some u → net.fetch u = FetchOutcome.err) →
      chaseLoop net base (l :: ls) = chaseLoop net base ls) := by
  refine ⟨?_, ?_, ?_⟩
  · intro url h
    unfold checkLinkForJson
    rw [h]
  · intro l ls h
    have hc : checkLinkForJson net l = none := by
      unfold checkLinkForJson
      rw [h]
    simp only [linksLoop]
    by_cases hskip : (jsStartsWith l (jstr "mailto:") || jsStartsWith l (jstr "#")) = true
    · rw [if_pos hskip]
    · rw [if_neg hskip]
      simp [hc, optTruthy]
  · intro base l ls h
    simp only [chaseLoop]
    cases hres : urlResolve l base with
    | none => rfl
    | some u =>
      dsimp only
      rw [h u hres]
      by_cases hlooks : looksLikeJsonUrl u = true
      · rw [if_pos hlooks]
      · rw [if_neg hlooks]

/-- Concrete instance of claim C8: with a network in which every fetch
throws, a two-link loop reduces to the one-link loop, via the error
theorem. -/
theorem c8_errors_non_fatal_witness :
    linksLoop ⟨fun _ => FetchOutcome.err, fun _ => [], fun _ => []⟩
      [jstr "http://a", jstr "http://b"] =
    linksLoop ⟨fun _ => FetchOutcome.err, fun _ => [], fun _ => []⟩ [jstr "http://b"] :=
  (c8_errors_non_fatal ⟨fun _ => FetchOutcome.err, fun _ => [], fun _ => []⟩).2.1
    (jstr "http://a") [jstr "http://b"] rfl

/-- Claim C9: every URL the page chaser actually fetches arose by
resolving some harvested page link against the page URL as base and
passes the suffix heuristic (lowercased URL with any query stripped ends
in `.json`); a link whose resolution fails is skipped without aborting
the chase; and on the concrete inputs of the claim, the base
`https://example.com/landing` with the reference `data/export.json?v=2`
resolves to `https://example.com/data/export.json?v=2`, which passes the
heuristic. -/
theorem c9_chase_resolution (net : NetWorld) (base : JStr) (links : List JStr) :
    (∀ u, u ∈ chaseFetches net base links →
      looksLikeJsonUrl u = true ∧ ∃ l, l ∈ links ∧ urlResolve l base = some u) ∧
    (∀ l ls, urlResolve l base = none →
      chaseLoop net base (l :: ls) = chaseLoop net base ls) ∧
    urlResolve (jstr "data/export.json?v=2") (jstr "https://example.com/landing") =
      some (jstr "https://example.com/data/export.json?v=2") ∧
    looksLikeJsonUrl (jstr "https://example.com/data/export.json?v=2") = true := by
  refine ⟨?_, ?_, by decide, by decide⟩
  · induction links with
    | nil => intro u h; simp [chaseFetches] at h
    | cons a rest ih =>
      intro u h
      simp only [chaseFetches] at h
      cases hres : urlResolve a base with
      | none =>
        rw [hres] at h
        dsimp only at h
        obtain ⟨hl, l, hm, hr⟩ := ih u h
        exact ⟨hl, l, List.mem_cons_of_mem a hm, hr⟩
      | some absoluteUrl =>
        rw [hres] at h
        dsimp only at h
        by_cases hlooks : looksLikeJsonUrl absoluteUrl = true
        · rw [if_pos hlooks] at h
          rcases List.mem_cons.mp h with rfl | htail
          · exact ⟨hlooks, a, List.mem_cons_self a rest, hres⟩
          · have htail2 : u ∈ chaseFetches net base rest := by
              cases hf : net.fetch absoluteUrl with
              | err => rw [hf] at htail; exact htail
              | ok r =>
                rw [hf] at htail
                dsimp only at htail
                by_cases hacc : chaseAccept r = true
                · rw [if_pos hacc] at htail; simp at htail
                · rw [if_neg hacc] at htail; exact htail
            obtain ⟨hl, l, hm, hr⟩ := ih u htail2
            exact ⟨hl, l, List.mem_cons_of_mem a hm, hr⟩
        · rw [if_neg hlooks] at h
          obtain ⟨hl, l, hm, hr⟩ := ih u h
          exact ⟨hl, l, List.mem_cons_of_mem a hm, hr⟩
  · intro l ls h
    simp only [chaseLoop]
    rw [h]

/-- Concrete instance of claim C9: in a chase over the single page link
`a.json` against base `https://h.io/p/`, the fetched URL
`https://h.io/p/a.json` passes the heuristic and arises by resolving a
harvested link, via the chase theorem. -/
theorem c9_chase_resolution_witness :
    looksLikeJsonUrl (jstr "https://h.io/p/a.json") = true ∧
    ∃ l, l ∈ [jstr "a.json"] ∧
      urlResolve l (jstr "https://h.io/p/") = some (jstr "https://h.io/p/a.json") :=
  (c9_chase_resolution ⟨fun _ => FetchOutcome.err, fun _ => [], fun _ => []⟩
    (jstr "https://h.io/p/") [jstr "a.json"]).1 (jstr "https://h.io/p/a.json") (by decide)

/-- Claim C10: the direct-JSON test of the link resolver excludes a
`null` body while the acceptance test of the page chaser does not.  On a
status 200 response
with no content-type and body `null`, the chaser accepts the candidate
and returns the value `null` as the result of the chase, while the
resolver classifies the very same response as no match. -/
theorem c10_null_body_divergence :
    resolverDirectAccept [] JsonValue.null = false ∧
    chaseAccept ⟨200, none, JsonValue.null⟩ = true ∧
    extractJsonFromHtmlPage
      ⟨fun _ => FetchOutcome.ok ⟨200, none, JsonValue.null⟩,
       fun _ => [some (jstr "data.json")], fun _ => []⟩
      (jstr "PAGE") (jstr "https://h.io/p") = some JsonValue.null ∧
    checkLinkForJson
      ⟨fun _ => FetchOutcome.ok ⟨200, none, JsonValue.null⟩,
       fun _ => [some (jstr "data.json")], fun _ => []⟩
      (jstr "https://h.io/data.json") = none :=
  ⟨by decide, by decide, by rfl, by rfl⟩

example : jstr "ab" = ['a', 'b'] := by decide
example :
    urlResolve (jstr "data/export.json?v=2") (jstr "https://example.com/landing") =
      some (jstr "https://example.com/data/export.json?v=2") := by decide
example : urlResolve (jstr "/a.json") (jstr "https://h.io/x/y?q=1") =
    some (jstr "https://h.io/a.json") := by decide
example : urlResolve (jstr "b.json") (jstr "nonsense") = none := by decide
example : jsSetOfList [jstr "a", jstr "b", jstr "a"] = [jstr "a", jstr "b"] := by decide
example : hasRun (jstr "xapplication/jsony") (jstr "application/json") = true := by decide
example : jsEndsWith (jstr "a.JSON") (jstr ".json") = false := by decide
example : jsEndsWith (lowerStr (jstr "a.JSON")) (jstr ".json") = true := by decide
example : beforeQuery (jstr "a.json?v=2") = jstr "a.json" := by decide
example : isJsonAttachment ⟨jstr "text/plain", some (jstr "A.Json"), []⟩ = true := by decide
example : isJsonAttachment ⟨jstr "Application/JSON", none, []⟩ = true := by decide
example : isJsonAttachment ⟨jstr "text/plain", none, []⟩ = false := by decide
